import Mathlib

/-!
Shallow embedding of the schedule-generator repository (src/BloqueHoras.py,
src/Grupo.py, src/Asignatura.py, src/Horario.py, src/GeneradorHorarios.py)
and proofs about the frozen claims over it.  Python sets of blocks are
modelled as duplicate-free lists, Python dicts as association lists built by
an insertion function with Python's key-update semantics, and exceptions as
explicit error values.
-/

namespace Horarios

/-- Embedding of the weekday enumeration `DiaSemana` from src/BloqueHoras.py. -/
inductive DiaSemana
  | lunes
  | martes
  | miercoles
  | jueves
  | viernes
  | sabado
deriving DecidableEq

/-- Embedding of a Python `datetime.time` value restricted to what this
program produces (hour, minute, second; the HH, HH:MM and HH:MM:SS inputs it
parses never carry microseconds). -/
structure Hora where
  hour : Nat
  minute : Nat
  second : Nat
deriving DecidableEq

/-- Total seconds since midnight.  Python compares `time` values
lexicographically by field, which for in-range fields coincides with
comparing total seconds. -/
def Hora.toSec (t : Hora) : Nat :=
  t.hour * 3600 + t.minute * 60 + t.second

/-- Boolean strict order on times, embedding Python `time < time`. -/
def Hora.menorQue (a b : Hora) : Bool :=
  decide (a.toSec < b.toSec)

/-- Embedding of `BloqueHoras` (src/BloqueHoras.py): an immutable weekday
plus start and end times. -/
structure BloqueHoras where
  dia : DiaSemana
  inicio : Hora
  fin : Hora
deriving DecidableEq

/-- Embedding of `BloqueHoras.se_solapa_con` (src/BloqueHoras.py, lines
155-161): different weekdays never clash; on the same weekday the open
intervals must intersect. -/
def BloqueHoras.seSolapaCon (a otroBloque : BloqueHoras) : Bool :=
  if a.dia ≠ otroBloque.dia then false
  else a.inicio.menorQue otroBloque.fin && otroBloque.inicio.menorQue a.fin

/-- Numeric value of two decimal digit characters, or `none`. -/
def dosDigitos (c1 c2 : Char) : Option Nat :=
  if c1.isDigit && c2.isDigit then
    some ((c1.toNat - 48) * 10 + (c2.toNat - 48))
  else none

/-- Models the Python standard-library parser `datetime.time.fromisoformat`
on the fraction-free, offset-free part of its input language: it accepts
exactly the strings HH, HH:MM and HH:MM:SS with two-digit in-range fields.
This is the documented `fromisoformat` time-string family; fractional
seconds and UTC offsets never appear in this program's data and are left out
of the model. -/
def fromisoformat (s : String) : Option Hora :=
  match s.data with
  | [h1, h2] =>
    match dosDigitos h1 h2 with
    | some h => if h < 24 then some ⟨h, 0, 0⟩ else none
    | none => none
  | [h1, h2, c1, m1, m2] =>
    if c1 = ':' then
      match dosDigitos h1 h2, dosDigitos m1 m2 with
      | some h, some m => if h < 24 ∧ m < 60 then some ⟨h, m, 0⟩ else none
      | _, _ => none
    else none
  | [h1, h2, c1, m1, m2, c2, s1, s2] =>
    if c1 = ':' ∧ c2 = ':' then
      match dosDigitos h1 h2, dosDigitos m1 m2, dosDigitos s1 s2 with
      | some h, some m, some s =>
        if h < 24 ∧ m < 60 ∧ s < 60 then some ⟨h, m, s⟩ else none
      | _, _, _ => none
    else none
  | _ => none

/-- Error kinds raised on the `BloqueHoras` construction path
(src/BloqueHoras.py): `invalidFormat` models the ValueError for an
unparseable time string, `invalidRange` the ValueError for start >= end. -/
inductive BloqueError
  | invalidFormat (nombreParametro valor : String)
  | invalidRange
deriving DecidableEq

/-- A dynamically-typed hour argument: Python accepts `str | time` here. -/
inductive HoraInput
  | str (s : String)
  | tiempo (t : Hora)

/-- Embedding of `BloqueHoras._validar_y_convertir_hora`
(src/BloqueHoras.py, lines 52-78): a `time` value passes through; a string
is handed to `time.fromisoformat`, and a parse failure becomes the
invalid-format ValueError. -/
def validarYConvertirHora (valor : HoraInput) (nombreParametro : String) :
    Except BloqueError Hora :=
  match valor with
  | .tiempo t => .ok t
  | .str s =>
    match fromisoformat s with
    | some t => .ok t
    | none => .error (.invalidFormat nombreParametro s)

/-- Embedding of the `BloqueHoras` constructor (src/BloqueHoras.py, lines
26-42): validate and convert both hours, then require start < end. -/
def mkBloqueHoras (dia : DiaSemana) (horaInicio horaFin : HoraInput) :
    Except BloqueError BloqueHoras :=
  match validarYConvertirHora horaInicio "hora_inicio" with
  | .error e => .error e
  | .ok i =>
    match validarYConvertirHora horaFin "hora_fin" with
    | .error e => .error e
    | .ok f =>
      if f.toSec ≤ i.toSec then .error .invalidRange else .ok ⟨dia, i, f⟩

/-- Decidable statement of the spec's "HH:MM format": exactly five
characters HH:MM whose fields form a valid hour and minute. -/
def esFormatoHHMM (s : String) : Bool :=
  match s.data with
  | [h1, h2, c1, m1, m2] =>
    decide (c1 = ':') &&
      (match dosDigitos h1 h2, dosDigitos m1 m2 with
       | some h, some m => decide (h < 24) && decide (m < 60)
       | _, _ => false)
  | _ => false

/-- Embedding of `Grupo` (src/Grupo.py): a numeric id, a teacher and a set
of time blocks.  The Python `set` is modelled as a duplicate-free list in
some iteration order; all the operations below are insensitive to that
order except for which conflicting block is reported first. -/
structure Grupo where
  idGrupo : Nat
  profesor : String
  bloques : List BloqueHoras
deriving DecidableEq

/-- Embedding of Python `set.add`: a structurally equal member is absorbed,
anything else is inserted. -/
def setAdd (l : List BloqueHoras) (b : BloqueHoras) : List BloqueHoras :=
  if b ∈ l then l else b :: l

/-- Error raised by `Grupo.agregar_bloque_horario` when the new block
overlaps a stored one (the InternalConflict ValueError, which names the
group id and both blocks). -/
inductive GrupoError
  | internalConflict (idGrupo : Nat) (nuevo existente : BloqueHoras)
deriving DecidableEq

/-- Embedding of `Grupo.agregar_bloque_horario` (src/Grupo.py, lines
64-82): scan the stored blocks for one that overlaps the new block; raise
on the first hit (leaving the set untouched), otherwise add the block to
the set.  The result pairs the post-state with the optional error. -/
def Grupo.agregarBloqueHorario (g : Grupo) (nuevoBloque : BloqueHoras) :
    Grupo × Option GrupoError :=
  match g.bloques.find? (fun b => nuevoBloque.seSolapaCon b) with
  | some b => (g, some (.internalConflict g.idGrupo nuevoBloque b))
  | none => ({ g with bloques := setAdd g.bloques nuevoBloque }, none)

/-- Embedding of `Grupo.se_solapa_con` (src/Grupo.py, lines 84-93): some
block of one group overlaps some block of the other. -/
def Grupo.seSolapaConGrupo (g otroGrupo : Grupo) : Bool :=
  g.bloques.any fun miBloque =>
    otroGrupo.bloques.any fun suBloque => miBloque.seSolapaCon suBloque

/-- Embedding of `Asignatura` (src/Asignatura.py): a name and the groups on
offer.  The Python id-keyed dict is modelled by its `grupos` property
snapshot (the list of groups, whose ids are distinct by construction). -/
structure Asignatura where
  nombre : String
  grupos : List Grupo
deriving DecidableEq

/-- Models Python `str.lower` on the ASCII subject names this program works
with: lowercase every character. -/
def minusculas (s : String) : String :=
  ⟨s.data.map Char.toLower⟩

/-- Dictionary key of a subject: Python hashes and compares `Asignatura` by
the lowercase name (src/Asignatura.py, lines 72-80). -/
def nombreKey (a : Asignatura) : String :=
  minusculas a.nombre

/-- Embedding of `Horario` (src/Horario.py): the validated selection, a
dict from subject to chosen group kept as an association list in insertion
order. -/
structure Horario where
  seleccion : List (Asignatura × Grupo)
deriving DecidableEq

/-- Embedding of `Horario.__len__`: the number of subjects selected. -/
def Horario.len (h : Horario) : Nat :=
  h.seleccion.length

/-- Error kinds on the `Horario` construction path (src/Horario.py):
`scheduleConflict` models the ValueError raised by `_validar_conflictos`
(naming both group ids and both subject names), `typeMismatch` the
TypeError for a non-dict argument. -/
inductive PyError
  | scheduleConflict (idGrupo1 : Nat) (nombre1 : String)
      (idGrupo2 : Nat) (nombre2 : String)
  | typeMismatch
deriving DecidableEq

/-- Embedding of `Horario._validar_conflictos` (src/Horario.py, lines
32-43): outer loop over positions i, inner loop over positions j > i, in
order; the first overlapping pair yields the ScheduleConflict error. -/
def primerConflicto : List (Asignatura × Grupo) → Option PyError
  | [] => none
  | (a, g) :: resto =>
    match resto.find? (fun p => g.seSolapaConGrupo p.2) with
    | some (a2, g2) =>
      some (.scheduleConflict g.idGrupo a.nombre g2.idGrupo a2.nombre)
    | none => primerConflicto resto

/-- A dynamically-typed `Horario.__init__` argument: either an actual dict
(association list) or something else, which Python rejects with TypeError. -/
inductive SeleccionInput
  | dict (seleccion : List (Asignatura × Grupo))
  | noDict

/-- Embedding of `Horario.__init__` (src/Horario.py, lines 13-30): reject a
non-dict argument, then validate pairwise conflicts; a conflict raises the
ScheduleConflict ValueError, otherwise the schedule is built. -/
def mkHorario : SeleccionInput → Except PyError Horario
  | .noDict => .error .typeMismatch
  | .dict sel =>
    match primerConflicto sel with
    | some e => .error e
    | none => .ok ⟨sel⟩

/-- Embedding of `itertools.combinations` on lists: all length-k sublists,
in the order itertools produces them. -/
def combinations : Nat → List α → List (List α)
  | 0, _ => [[]]
  | _ + 1, [] => []
  | k + 1, x :: xs => (combinations k xs).map (x :: ·) ++ combinations (k + 1) xs

/-- Embedding of `itertools.product` on a list of lists: all choice tuples,
rightmost factor varying fastest. -/
def productL : List (List α) → List (List α)
  | [] => [[]]
  | l :: ls => l.flatMap fun x => (productL ls).map (x :: ·)

/-- Python dict insertion for subject-keyed dicts: updating an existing key
keeps the original key object and its position and overwrites the value;
a new key is appended. -/
def dictInsert (d : List (Asignatura × Grupo)) (k : Asignatura) (v : Grupo) :
    List (Asignatura × Grupo) :=
  match d with
  | [] => [(k, v)]
  | (k', v') :: resto =>
    if nombreKey k' = nombreKey k then (k', v) :: resto
    else (k', v') :: dictInsert resto k v

/-- Embedding of `dict(zip(...))`: build a dict from the pair list by
repeated insertion. -/
def dictOfPairs (ps : List (Asignatura × Grupo)) : List (Asignatura × Grupo) :=
  ps.foldl (fun d p => dictInsert d p.1 p.2) []

/-- The candidate selections `encontrar_horarios` assembles, in generation
order (src/GeneradorHorarios.py, lines 20-32): every k-combination of the
catalog, and for each, every product tuple of the subjects' group lists,
zipped and turned into a dict. -/
def candidatos (catalogo : List Asignatura) (numMaterias : Nat) :
    List (List (Asignatura × Grupo)) :=
  (combinations numMaterias catalogo).flatMap fun conjuntoMaterias =>
    (productL (conjuntoMaterias.map (·.grupos))).map fun tupla =>
      dictOfPairs (conjuntoMaterias.zip tupla)

/-- Embedding of the generator loop body of `encontrar_horarios`
(src/GeneradorHorarios.py, lines 34-45): each construction outcome is
inspected in order; a success is yielded, the ScheduleConflict ValueError
is swallowed and the loop continues, and any other exception (the TypeError
kind) aborts the whole generator. -/
def generarConManejo : List (Except PyError Horario) → Except PyError (List Horario)
  | [] => .ok []
  | .ok h :: resto =>
    match generarConManejo resto with
    | .ok hs => .ok (h :: hs)
    | .error e => .error e
  | .error (.scheduleConflict _ _ _ _) :: resto => generarConManejo resto
  | .error .typeMismatch :: _ => .error .typeMismatch

/-- Embedding of `encontrar_horarios` (src/GeneradorHorarios.py, lines
9-45): run the generator loop over all assembled candidates. -/
def encontrarHorarios (catalogo : List Asignatura) (numMaterias : Nat) :
    Except PyError (List Horario) :=
  generarConManejo
    ((candidatos catalogo numMaterias).map fun sel => mkHorario (.dict sel))

/-- The spec's notion of what `encontrar_horarios` may yield: a selection
assigning, to each subject of some size-k sublist of the catalog, one of
that subject's groups, with pairwise non-overlapping chosen groups. -/
def SeleccionValida (catalogo : List Asignatura) (k : Nat)
    (sel : List (Asignatura × Grupo)) : Prop :=
  sel.length = k ∧ (sel.map Prod.fst).Sublist catalogo ∧
    (∀ p ∈ sel, p.2 ∈ p.1.grupos) ∧
    (sel.map Prod.snd).Pairwise fun g1 g2 => g1.seSolapaConGrupo g2 = false

/-- Concrete fixtures (taken from the demo data in src/Horario.py) used to
instantiate theorems with hypotheses on concrete inputs. -/
def bloqueL79 : BloqueHoras := ⟨.lunes, ⟨7, 0, 0⟩, ⟨9, 0, 0⟩⟩

/-- Monday 09:00 to 11:00. -/
def bloqueL911 : BloqueHoras := ⟨.lunes, ⟨9, 0, 0⟩, ⟨11, 0, 0⟩⟩

/-- Tuesday 07:00 to 09:00. -/
def bloqueM79 : BloqueHoras := ⟨.martes, ⟨7, 0, 0⟩, ⟨9, 0, 0⟩⟩

/-- Calculus group 1, Monday 07:00-09:00. -/
def grupoCalc1 : Grupo := ⟨1, "Dr. Gauss", [bloqueL79]⟩

/-- Calculus group 2, Tuesday 07:00-09:00. -/
def grupoCalc2 : Grupo := ⟨2, "Dra. Lagrange", [bloqueM79]⟩

/-- Physics group 1, Monday 09:00-11:00. -/
def grupoFis1 : Grupo := ⟨1, "Dr. Einstein", [bloqueL911]⟩

/-- Calculus subject with two groups. -/
def asigCalc : Asignatura := ⟨"Calc", [grupoCalc1, grupoCalc2]⟩

/-- Physics subject with one group. -/
def asigFis : Asignatura := ⟨"Fisica", [grupoFis1]⟩

/-- A second subject whose name collides with `asigFis` up to case, since
Python compares subjects case-insensitively. -/
def asigFisDup : Asignatura := ⟨"fisica", [grupoCalc2]⟩

/-- C3: `se_solapa_con` returns false when the weekdays differ, and
otherwise is true exactly when the open intervals intersect
(start1 < end2 and start2 < end1); in particular two same-day blocks that
merely touch at a boundary do not overlap. -/
theorem solape_caracterizacion (a b : BloqueHoras) :
    (a.dia ≠ b.dia → a.seSolapaCon b = false) ∧
    (a.seSolapaCon b = true ↔
      a.dia = b.dia ∧ a.inicio.toSec < b.fin.toSec ∧ b.inicio.toSec < a.fin.toSec) ∧
    (a.dia = b.dia → a.fin = b.inicio → a.seSolapaCon b = false) := by
  refine ⟨fun h => by simp [BloqueHoras.seSolapaCon, h], ?_, fun h he => ?_⟩
  · by_cases h : a.dia = b.dia
    · simp [BloqueHoras.seSolapaCon, h, Hora.menorQue]
    · simp [BloqueHoras.seSolapaCon, h]
  · simp [BloqueHoras.seSolapaCon, h, Hora.menorQue, he]

/-- C3 witness: the characterization instantiated at the two touching
blocks Monday 07:00-09:00 and Monday 09:00-11:00. -/
theorem solape_caracterizacion_testigo :
    bloqueL79.dia = bloqueL911.dia ∧ bloqueL79.fin = bloqueL911.inicio ∧
      bloqueL79.seSolapaCon bloqueL911 = false :=
  ⟨by decide, by decide,
    (solape_caracterizacion bloqueL79 bloqueL911).2.2 (by decide) (by decide)⟩

/-- C4: the block overlap test is symmetric. -/
theorem solape_simetrico (a b : BloqueHoras) :
    a.seSolapaCon b = b.seSolapaCon a := by
  by_cases h : a.dia = b.dia
  · simp [BloqueHoras.seSolapaCon, h, Bool.and_comm]
  · have h' : b.dia ≠ a.dia := fun hh => h hh.symm
    simp [BloqueHoras.seSolapaCon, h, h']

/-- C5: `agregar_bloque_horario` reports an internal conflict exactly when
the new block overlaps some stored block; on a conflict the group is left
untouched, and otherwise the block is inserted into the set. -/
theorem agregar_bloque_sii_conflicto (g : Grupo) (n : BloqueHoras) :
    ((g.agregarBloqueHorario n).2.isSome ↔ ∃ b ∈ g.bloques, n.seSolapaCon b = true) ∧
    ((g.agregarBloqueHorario n).2.isSome → (g.agregarBloqueHorario n).1 = g) ∧
    ((g.agregarBloqueHorario n).2 = none →
      (g.agregarBloqueHorario n).1.bloques = setAdd g.bloques n) := by
  cases hf : g.bloques.find? (fun b => n.seSolapaCon b) with
  | some b =>
    have hm := List.mem_of_find?_eq_some hf
    have hp := List.find?_some hf
    refine ⟨?_, ?_, ?_⟩ <;> simp [Grupo.agregarBloqueHorario, hf]
    exact ⟨b, hm, hp⟩
  | none =>
    have hno := List.find?_eq_none.mp hf
    refine ⟨?_, ?_, ?_⟩ <;> simp [Grupo.agregarBloqueHorario, hf]
    intro b hb
    exact Bool.eq_false_iff.mpr (hno b hb)

/-- C5 witness: adding the overlapping block Monday 08:00-10:00 to the
group that already holds Monday 07:00-09:00 is rejected and the group is
unchanged. -/
theorem agregar_bloque_sii_conflicto_testigo :
    (grupoCalc1.agregarBloqueHorario ⟨.lunes, ⟨8, 0, 0⟩, ⟨10, 0, 0⟩⟩).2.isSome ∧
      (grupoCalc1.agregarBloqueHorario ⟨.lunes, ⟨8, 0, 0⟩, ⟨10, 0, 0⟩⟩).1 = grupoCalc1 := by
  have h := agregar_bloque_sii_conflicto grupoCalc1 ⟨.lunes, ⟨8, 0, 0⟩, ⟨10, 0, 0⟩⟩
  have hs : (grupoCalc1.agregarBloqueHorario ⟨.lunes, ⟨8, 0, 0⟩, ⟨10, 0, 0⟩⟩).2.isSome :=
    h.1.mpr ⟨bloqueL79, by decide, by decide⟩
  exact ⟨hs, h.2.1 hs⟩

/-- C6 counterexample: adding a block structurally identical to one already
stored is NOT silently absorbed by the set: the code raises the internal
conflict error (a valid block overlaps itself), so the claim's no-error
behavior is refuted at this concrete input. -/
theorem duplicado_contraejemplo :
    bloqueL79 ∈ grupoCalc1.bloques ∧
      (grupoCalc1.agregarBloqueHorario bloqueL79).2 ≠ none := by decide

/-- C6 amended: adding a block identical to a stored one fails with the
internal-conflict error (any block with start < end overlaps itself) and
leaves the group unchanged. -/
theorem duplicado_provoca_conflicto (g : Grupo) (n : BloqueHoras)
    (hmem : n ∈ g.bloques) (hv : n.inicio.toSec < n.fin.toSec) :
    (g.agregarBloqueHorario n).2.isSome ∧ (g.agregarBloqueHorario n).1 = g := by
  have hself : n.seSolapaCon n = true := by
    simp [BloqueHoras.seSolapaCon, Hora.menorQue, hv]
  have h := agregar_bloque_sii_conflicto g n
  have hs := h.1.mpr ⟨n, hmem, hself⟩
  exact ⟨hs, h.2.1 hs⟩

/-- C6 amended witness: the duplicate-insertion failure at the concrete
group holding Monday 07:00-09:00. -/
theorem duplicado_provoca_conflicto_testigo :
    bloqueL79 ∈ grupoCalc1.bloques ∧
      bloqueL79.inicio.toSec < bloqueL79.fin.toSec ∧
      (grupoCalc1.agregarBloqueHorario bloqueL79).2.isSome := by
  refine ⟨by decide, by decide, ?_⟩
  exact (duplicado_provoca_conflicto grupoCalc1 bloqueL79 (by decide) (by decide)).1

/-- C7 counterexample: the string 09:30:15 is not of the HH:MM form, yet
the hour validator accepts it (Python `time.fromisoformat` also parses
HH:MM:SS), refuting "any string not of the form HH:MM is rejected". -/
theorem formato_contraejemplo :
    esFormatoHHMM "09:30:15" = false ∧
      validarYConvertirHora (.str "09:30:15") "hora_inicio" = .ok ⟨9, 30, 15⟩ := by
  exact ⟨by decide, rfl⟩

/-- C7 amended: the validator fails with the invalid-format error exactly
when `time.fromisoformat` cannot parse the string, and every well-formed
HH:MM string is accepted (acceptance is strictly broader than HH:MM). -/
theorem validar_hora_sii_isoformat (s : String) (nombreParametro : String) :
    (validarYConvertirHora (.str s) nombreParametro =
        .error (.invalidFormat nombreParametro s) ↔ fromisoformat s = none) ∧
    (esFormatoHHMM s = true →
      ∃ t, validarYConvertirHora (.str s) nombreParametro = .ok t) := by
  constructor
  · cases hp : fromisoformat s with
    | some t => simp [validarYConvertirHora, hp]
    | none => simp [validarYConvertirHora, hp]
  · intro hf
    suffices h : ∃ t, fromisoformat s = some t by
      obtain ⟨t, ht⟩ := h
      exact ⟨t, by simp [validarYConvertirHora, ht]⟩
    unfold esFormatoHHMM at hf
    unfold fromisoformat
    match hs : s.data with
    | [h1, h2, c1, m1, m2] =>
      rw [hs] at hf
      simp only [Bool.and_eq_true, decide_eq_true_eq] at hf
      obtain ⟨hc, hrest⟩ := hf
      cases hd1 : dosDigitos h1 h2 with
      | none => rw [hd1] at hrest; simp at hrest
      | some h =>
        cases hd2 : dosDigitos m1 m2 with
        | none => rw [hd1, hd2] at hrest; simp at hrest
        | some m =>
          rw [hd1, hd2] at hrest
          simp only [Bool.and_eq_true, decide_eq_true_eq] at hrest
          refine ⟨⟨h, m, 0⟩, ?_⟩
          simp [hc, hd1, hd2, hrest.1, hrest.2]
    | [] => rw [hs] at hf; simp at hf
    | [c] => rw [hs] at hf; simp at hf
    | [c1, c2] => rw [hs] at hf; simp at hf
    | [c1, c2, c3] => rw [hs] at hf; simp at hf
    | [c1, c2, c3, c4] => rw [hs] at hf; simp at hf
    | c1 :: c2 :: c3 :: c4 :: c5 :: c6 :: resto => rw [hs] at hf; simp at hf

/-- C7 amended witness: the well-formed string 09:30 is accepted. -/
theorem validar_hora_sii_isoformat_testigo :
    esFormatoHHMM "09:30" = true ∧
      ∃ t, validarYConvertirHora (.str "09:30") "hora_inicio" = .ok t :=
  ⟨by decide, (validar_hora_sii_isoformat "09:30" "hora_inicio").2 (by decide)⟩

/-- Helper: the pairwise i-then-j-greater loop of `_validar_conflictos`
finds no conflict exactly when the chosen groups are pairwise
non-overlapping in insertion order. -/
theorem primerConflicto_eq_none_iff (sel : List (Asignatura × Grupo)) :
    primerConflicto sel = none ↔
      (sel.map Prod.snd).Pairwise fun g1 g2 => g1.seSolapaConGrupo g2 = false := by
  induction sel with
  | nil => simp [primerConflicto]
  | cons p resto ih =>
    obtain ⟨a, g⟩ := p
    cases hf : resto.find? (fun q => g.seSolapaConGrupo q.2) with
    | some q =>
      obtain ⟨a2, g2⟩ := q
      have hm := List.mem_of_find?_eq_some hf
      have hp := List.find?_some hf
      simp only [primerConflicto, hf, List.map_cons, List.pairwise_cons]
      constructor
      · intro h; exact absurd h (by simp)
      · rintro ⟨hall, _⟩
        have hfalse : g.seSolapaConGrupo g2 = false :=
          hall g2 (List.mem_map_of_mem Prod.snd hm)
        simp only [hfalse] at hp
        cases hp
    | none =>
      have hno := List.find?_eq_none.mp hf
      simp only [primerConflicto, hf, List.map_cons, List.pairwise_cons]
      constructor
      · intro h
        refine ⟨?_, ih.mp h⟩
        intro g2 hg2
        obtain ⟨q, hq, rfl⟩ := List.mem_map.mp hg2
        exact Bool.eq_false_iff.mpr (hno q hq)
      · rintro ⟨_, hpw⟩
        exact ih.mpr hpw

/-- Helper: any error produced by the conflict scan is a ScheduleConflict. -/
theorem primerConflicto_forma (sel : List (Asignatura × Grupo)) (e : PyError)
    (h : primerConflicto sel = some e) :
    ∃ i1 n1 i2 n2, e = .scheduleConflict i1 n1 i2 n2 := by
  induction sel with
  | nil => simp [primerConflicto] at h
  | cons p resto ih =>
    obtain ⟨a, g⟩ := p
    cases hf : resto.find? (fun q => g.seSolapaConGrupo q.2) with
    | some q =>
      obtain ⟨a2, g2⟩ := q
      simp only [primerConflicto, hf] at h
      exact ⟨_, _, _, _, (Option.some_inj.mp h).symm⟩
    | none =>
      simp only [primerConflicto, hf] at h
      exact ih h

/-- C2: Schedule construction on a selection of two or more subjects
succeeds exactly when every pair of distinct chosen groups is
non-overlapping, and on a conflict it fails with the ScheduleConflict
ValueError. -/
theorem horario_sii_sin_conflictos (sel : List (Asignatura × Grupo))
    (h2 : 2 ≤ sel.length) :
    ((∃ h, mkHorario (.dict sel) = .ok h) ↔
      (sel.map Prod.snd).Pairwise fun g1 g2 => g1.seSolapaConGrupo g2 = false) ∧
    ((¬ (sel.map Prod.snd).Pairwise fun g1 g2 => g1.seSolapaConGrupo g2 = false) →
      ∃ i1 n1 i2 n2,
        mkHorario (.dict sel) = .error (.scheduleConflict i1 n1 i2 n2)) := by
  constructor
  · constructor
    · rintro ⟨h, hh⟩
      rw [← primerConflicto_eq_none_iff sel]
      cases hc : primerConflicto sel with
      | none => rfl
      | some e => simp [mkHorario, hc] at hh
    · intro hpw
      have hc : primerConflicto sel = none := (primerConflicto_eq_none_iff sel).mpr hpw
      exact ⟨⟨sel⟩, by simp [mkHorario, hc]⟩
  · intro hpw
    cases hc : primerConflicto sel with
    | none => exact absurd ((primerConflicto_eq_none_iff sel).mp hc) hpw
    | some e =>
      obtain ⟨i1, n1, i2, n2, rfl⟩ := primerConflicto_forma sel e hc
      exact ⟨i1, n1, i2, n2, by simp [mkHorario, hc]⟩

/-- C2 witness: the conflict-free two-subject selection Calc group 1 plus
Physics group 1 (boundary touch at 09:00) is accepted. -/
theorem horario_sii_sin_conflictos_testigo :
    2 ≤ [(asigCalc, grupoCalc1), (asigFis, grupoFis1)].length ∧
      ∃ h, mkHorario (.dict [(asigCalc, grupoCalc1), (asigFis, grupoFis1)]) = .ok h :=
  ⟨by decide,
    (horario_sii_sin_conflictos [(asigCalc, grupoCalc1), (asigFis, grupoFis1)]
      (by decide)).1.mpr (by decide)⟩

/-- Helper: running the generator loop over the real pipeline, where every
failure is a ScheduleConflict, yields exactly the valid candidates. -/
theorem generarConManejo_pipeline (sels : List (List (Asignatura × Grupo))) :
    generarConManejo (sels.map fun s => mkHorario (.dict s)) =
      .ok ((sels.filter fun s => (primerConflicto s).isNone).map Horario.mk) := by
  induction sels with
  | nil => rfl
  | cons s resto ih =>
    cases hc : primerConflicto s with
    | none =>
      have hmk : mkHorario (.dict s) = .ok ⟨s⟩ := by simp [mkHorario, hc]
      simp [List.map_cons, hmk, generarConManejo, ih, List.filter_cons, hc]
    | some e =>
      obtain ⟨i1, n1, i2, n2, rfl⟩ := primerConflicto_forma s e hc
      have hmk : mkHorario (.dict s) =
          .error (.scheduleConflict i1 n1 i2 n2) := by simp [mkHorario, hc]
      simp [List.map_cons, hmk, generarConManejo, ih, List.filter_cons, hc]

/-- C8: the generator loop swallows exactly the ScheduleConflict failures
(continuing with the remaining candidates) and propagates any other error
kind (the TypeError) to the caller; in the actual pipeline construction
only ever fails with ScheduleConflict, so `encontrar_horarios` itself never
surfaces an error. -/
theorem generador_descarta_solo_conflictos :
    (∀ outs : List (Except PyError Horario), .error .typeMismatch ∉ outs →
      generarConManejo outs =
        .ok (outs.filterMap fun o =>
          match o with | .ok h => some h | .error _ => none)) ∧
    (∀ pre post : List (Except PyError Horario), .error .typeMismatch ∉ pre →
      generarConManejo (pre ++ .error .typeMismatch :: post) =
        .error .typeMismatch) ∧
    (∀ (catalogo : List Asignatura) (k : Nat),
      ∃ hs, encontrarHorarios catalogo k = .ok hs) := by
  refine ⟨?_, ?_, ?_⟩
  · intro outs hout
    induction outs with
    | nil => rfl
    | cons o resto ih =>
      have hmem : Except.error PyError.typeMismatch ∉ resto :=
        fun hm => hout (List.mem_cons_of_mem o hm)
      cases o with
      | ok h => simp [generarConManejo, ih hmem, List.filterMap_cons]
      | error e =>
        cases e with
        | scheduleConflict i1 n1 i2 n2 =>
          simp [generarConManejo, ih hmem, List.filterMap_cons]
        | typeMismatch => exact absurd (List.mem_cons_self _ _) hout
  · intro pre post hpre
    induction pre with
    | nil => rfl
    | cons o resto ih =>
      have hmem : Except.error PyError.typeMismatch ∉ resto :=
        fun hm => hpre (List.mem_cons_of_mem o hm)
      cases o with
      | ok h => simp [generarConManejo, ih hmem]
      | error e =>
        cases e with
        | scheduleConflict i1 n1 i2 n2 => simp [generarConManejo, ih hmem]
        | typeMismatch => exact absurd (List.mem_cons_self _ _) hpre
  · intro catalogo k
    exact ⟨_, generarConManejo_pipeline _⟩

/-- C8 witness: a ScheduleConflict outcome between two successes is
discarded while the successes are kept, and a TypeError outcome aborts. -/
theorem generador_descarta_solo_conflictos_testigo :
    generarConManejo
        [.ok ⟨[]⟩, .error (.scheduleConflict 1 "a" 2 "b"), .ok ⟨[(asigFis, grupoFis1)]⟩] =
      .ok [⟨[]⟩, ⟨[(asigFis, grupoFis1)]⟩] ∧
    generarConManejo [.ok ⟨[]⟩, .error .typeMismatch] = .error .typeMismatch := by
  constructor
  · exact generador_descarta_solo_conflictos.1
      [.ok ⟨[]⟩, .error (.scheduleConflict 1 "a" 2 "b"), .ok ⟨[(asigFis, grupoFis1)]⟩]
      (by simp)
  · exact generador_descarta_solo_conflictos.2.1 [.ok ⟨[]⟩] [] (by simp)

/-- Helper: asking for more elements than a list has leaves no
combinations. -/
theorem combinations_eq_nil_of_lt {α : Type} (l : List α) (k : Nat)
    (h : l.length < k) : combinations k l = [] := by
  induction l generalizing k with
  | nil =>
    cases k with
    | zero => simp at h
    | succ k => rfl
  | cons x xs ih =>
    cases k with
    | zero => simp at h
    | succ k =>
      have h1 : xs.length < k := by simpa using h
      simp [combinations, ih k h1, ih (k + 1) (by omega)]

/-- C9: requesting more subjects than the catalog offers produces the empty
result set and no error. -/
theorem k_mayor_vacio (catalogo : List Asignatura) (k : Nat)
    (h : catalogo.length < k) :
    encontrarHorarios catalogo k = .ok [] := by
  unfold encontrarHorarios candidatos
  rw [combinations_eq_nil_of_lt catalogo k h]
  rfl

/-- C9 witness: asking for 3 subjects out of a 2-subject catalog. -/
theorem k_mayor_vacio_testigo :
    [asigCalc, asigFis].length < 3 ∧
      encontrarHorarios [asigCalc, asigFis] 3 = .ok [] :=
  ⟨by decide, k_mayor_vacio [asigCalc, asigFis] 3 (by decide)⟩

/-- Helper: choosing zero elements always produces exactly one empty
choice. -/
theorem combinations_zero {α : Type} (l : List α) : combinations 0 l = [[]] := by
  cases l <;> rfl

/-- Helper: membership in `combinations k l` is exactly being a length-k
sublist of l (one choice per size-k subset, in catalog order). -/
theorem mem_combinations {α : Type} (l : List α) :
    ∀ (k : Nat) (c : List α), c ∈ combinations k l ↔ c.Sublist l ∧ c.length = k := by
  induction l with
  | nil =>
    intro k c
    cases k with
    | zero =>
      rw [combinations_zero]
      constructor
      · intro h
        rw [List.mem_singleton] at h
        subst h
        exact ⟨List.nil_sublist _, rfl⟩
      · rintro ⟨_, hl⟩
        rw [List.mem_singleton]
        exact List.length_eq_zero.mp hl
    | succ k =>
      constructor
      · intro h
        cases h
      · rintro ⟨hs, hl⟩
        rw [List.sublist_nil.mp hs] at hl
        cases hl
  | cons x xs ih =>
    intro k c
    cases k with
    | zero =>
      rw [combinations_zero]
      constructor
      · intro h
        rw [List.mem_singleton] at h
        subst h
        exact ⟨List.nil_sublist _, rfl⟩
      · rintro ⟨_, hl⟩
        rw [List.mem_singleton]
        exact List.length_eq_zero.mp hl
    | succ k =>
      rw [show combinations (k + 1) (x :: xs) =
        (combinations k xs).map (x :: ·) ++ combinations (k + 1) xs from rfl]
      rw [List.mem_append, List.mem_map]
      constructor
      · rintro (⟨c', hc', rfl⟩ | hc)
        · obtain ⟨hs, hl⟩ := (ih k c').mp hc'
          exact ⟨List.Sublist.cons₂ x hs, by simp [hl]⟩
        · obtain ⟨hs, hl⟩ := (ih (k + 1) c).mp hc
          exact ⟨List.Sublist.cons x hs, hl⟩
      · rintro ⟨hs, hl⟩
        cases hs with
        | cons _ hs' => exact Or.inr ((ih (k + 1) c).mpr ⟨hs', hl⟩)
        | cons₂ _ hs' =>
          rename_i c'
          exact Or.inl ⟨c', (ih k c').mpr ⟨hs', by simpa using hl⟩, rfl⟩

/-- Helper: over a duplicate-free list the produced combinations are
pairwise distinct. -/
theorem nodup_combinations {α : Type} :
    ∀ l : List α, l.Nodup → ∀ k : Nat, (combinations k l).Nodup := by
  intro l
  induction l with
  | nil =>
    intro _ k
    cases k with
    | zero => rw [combinations_zero]; exact List.nodup_singleton _
    | succ k => exact List.nodup_nil
  | cons x xs ih =>
    intro hl k
    have hx : x ∉ xs := (List.nodup_cons.mp hl).1
    have hxs : xs.Nodup := (List.nodup_cons.mp hl).2
    cases k with
    | zero => rw [combinations_zero]; exact List.nodup_singleton _
    | succ k =>
      rw [show combinations (k + 1) (x :: xs) =
        (combinations k xs).map (x :: ·) ++ combinations (k + 1) xs from rfl]
      refine List.Nodup.append ?_ ?_ ?_
      · exact (ih hxs k).map fun a b hab => by injection hab
      · exact ih hxs (k + 1)
      · intro c hc1 hc2
        obtain ⟨c', _, rfl⟩ := List.mem_map.mp hc1
        have hs := ((mem_combinations xs (k + 1) (x :: c')).mp hc2).1
        exact hx (hs.subset (List.mem_cons_self x c'))

/-- Helper: membership in the cartesian product is componentwise
membership. -/
theorem mem_productL {α : Type} :
    ∀ (ls : List (List α)) (tup : List α),
      tup ∈ productL ls ↔ List.Forall₂ (fun x lx => x ∈ lx) tup ls := by
  intro ls
  induction ls with
  | nil =>
    intro tup
    rw [show productL ([] : List (List α)) = [[]] from rfl]
    rw [List.mem_singleton, List.forall₂_nil_right_iff]
  | cons lx ls ih =>
    intro tup
    rw [show productL (lx :: ls) =
      lx.flatMap (fun x => (productL ls).map (x :: ·)) from rfl]
    rw [List.mem_flatMap, List.forall₂_cons_right_iff]
    constructor
    · rintro ⟨x, hx, hm⟩
      obtain ⟨t', ht', rfl⟩ := List.mem_map.mp hm
      exact ⟨x, t', hx, (ih t').mp ht', rfl⟩
    · rintro ⟨x, t', hx, ht', rfl⟩
      exact ⟨x, hx, List.mem_map_of_mem _ ((ih t').mpr ht')⟩

/-- Helper: the cartesian product of duplicate-free factor lists has no
repeated tuple. -/
theorem nodup_productL {α : Type} :
    ∀ ls : List (List α), (∀ lx ∈ ls, lx.Nodup) → (productL ls).Nodup := by
  intro ls
  induction ls with
  | nil => intro _; exact List.nodup_singleton _
  | cons lx ls ih =>
    intro hall
    have hlx : lx.Nodup := hall lx (List.mem_cons_self _ _)
    have hls : ∀ l ∈ ls, l.Nodup := fun l hl => hall l (List.mem_cons_of_mem _ hl)
    rw [show productL (lx :: ls) =
      lx.flatMap (fun x => (productL ls).map (x :: ·)) from rfl]
    rw [List.nodup_flatMap]
    refine ⟨fun x _ => (ih hls).map fun a b hab => by injection hab, ?_⟩
    refine List.Pairwise.imp ?_ hlx
    intro a b hab t hta htb
    obtain ⟨t1, _, rfl⟩ := List.mem_map.mp hta
    obtain ⟨t2, _, heq⟩ := List.mem_map.mp htb
    exact hab (by rw [List.cons.injEq] at heq; exact heq.1.symm)

/-- Helper: inserting a fresh key into a dict appends the pair. -/
theorem dictInsert_of_fresh (d : List (Asignatura × Grupo)) (k : Asignatura)
    (v : Grupo) (h : ∀ p ∈ d, nombreKey p.1 ≠ nombreKey k) :
    dictInsert d k v = d ++ [(k, v)] := by
  induction d with
  | nil => rfl
  | cons p resto ih =>
    obtain ⟨k', v'⟩ := p
    have hk : nombreKey k' ≠ nombreKey k := h (k', v') (List.mem_cons_self _ _)
    show (if nombreKey k' = nombreKey k then (k', v) :: resto
      else (k', v') :: dictInsert resto k v) = _
    rw [if_neg hk, ih fun q hq => h q (List.mem_cons_of_mem _ hq)]
    rfl

/-- Helper: building a dict from pairs with pairwise distinct keys keeps
the pairs unchanged. -/
theorem dictOfPairs_eq_self (ps : List (Asignatura × Grupo))
    (h : (ps.map fun p => nombreKey p.1).Nodup) : dictOfPairs ps = ps := by
  suffices haux : ∀ (qs d : List (Asignatura × Grupo)),
      ((d ++ qs).map fun p => nombreKey p.1).Nodup →
      qs.foldl (fun acc p => dictInsert acc p.1 p.2) d = d ++ qs by
    simpa [dictOfPairs] using haux ps [] (by simpa using h)
  intro qs
  induction qs with
  | nil => intro d _; simp
  | cons p resto ih =>
    intro d hnd
    obtain ⟨pk, pv⟩ := p
    rw [List.foldl_cons]
    have hfresh : ∀ q ∈ d, nombreKey q.1 ≠ nombreKey pk := by
      intro q hq heq
      rw [List.map_append, List.nodup_append] at hnd
      exact hnd.2.2 (List.mem_map_of_mem _ hq)
        (by rw [List.map_cons]; exact heq ▸ List.mem_cons_self _ _)
    rw [dictInsert_of_fresh d pk pv hfresh]
    rw [ih (d ++ [(pk, pv)]) (by simpa using hnd)]
    simp

/-- Helper: zipping the two projections of a pair list restores it. -/
theorem zip_fst_snd {α β : Type} :
    ∀ l : List (α × β), (l.map Prod.fst).zip (l.map Prod.snd) = l := by
  intro l
  induction l with
  | nil => rfl
  | cons p resto ih => simp [ih]

/-- Helper: a product tuple zipped back onto its subjects chooses, at every
position, a group offered by that subject. -/
theorem zip_mem_grupos :
    ∀ (conj : List Asignatura) (tup : List Grupo),
      List.Forall₂ (fun g lx => g ∈ lx) tup (conj.map (·.grupos)) →
      ∀ p ∈ conj.zip tup, p.2 ∈ p.1.grupos := by
  intro conj
  induction conj with
  | nil => intro tup _ p hp; simp at hp
  | cons a conj ih =>
    intro tup hf p hp
    rw [List.map_cons, List.forall₂_cons_right_iff] at hf
    obtain ⟨g, tl, hg, htl, rfl⟩ := hf
    rw [List.zip_cons_cons, List.mem_cons] at hp
    cases hp with
    | inl h => subst h; exact hg
    | inr h => exact ih tl htl p h

/-- Helper: a selection choosing one offered group per subject induces the
componentwise membership relation of the cartesian product. -/
theorem forall₂_of_mem_grupos :
    ∀ sel : List (Asignatura × Grupo),
      (∀ p ∈ sel, p.2 ∈ p.1.grupos) →
      List.Forall₂ (fun g lx => g ∈ lx) (sel.map Prod.snd)
        ((sel.map Prod.fst).map (·.grupos)) := by
  intro sel
  induction sel with
  | nil => intro _; simp
  | cons p resto ih =>
    intro hall
    simp only [List.map_cons]
    exact List.Forall₂.cons (hall p (List.mem_cons_self _ _))
      (ih fun q hq => hall q (List.mem_cons_of_mem _ hq))

/-- Helper: unfolding membership in the candidate list. -/
theorem mem_candidatos (catalogo : List Asignatura) (k : Nat)
    (sel : List (Asignatura × Grupo)) :
    sel ∈ candidatos catalogo k ↔
      ∃ conj tup, conj ∈ combinations k catalogo ∧
        tup ∈ productL (conj.map (·.grupos)) ∧
        sel = dictOfPairs (conj.zip tup) := by
  unfold candidatos
  rw [List.mem_flatMap]
  constructor
  · rintro ⟨conj, hconj, hm⟩
    obtain ⟨tup, htup, rfl⟩ := List.mem_map.mp hm
    exact ⟨conj, tup, hconj, htup, rfl⟩
  · rintro ⟨conj, tup, hconj, htup, rfl⟩
    exact ⟨conj, hconj, List.mem_map_of_mem _ htup⟩

/-- Helper: construction followed by projection is the identity on
selection lists. -/
theorem map_mk_seleccion (l : List (List (Asignatura × Grupo))) :
    (l.map Horario.mk).map Horario.seleccion = l := by
  rw [List.map_map]
  exact List.map_id l

/-- Helper: over a subset of a catalog with pairwise distinct keys, the
dict built from a zipped selection keeps every pair. -/
theorem dict_zip_eq (catalogo : List Asignatura)
    (hnombres : (catalogo.map nombreKey).Nodup)
    (conj : List Asignatura) (hsub : conj.Sublist catalogo)
    (tup : List Grupo) (hlen : conj.length ≤ tup.length) :
    dictOfPairs (conj.zip tup) = conj.zip tup := by
  apply dictOfPairs_eq_self
  have hkeys : (conj.map nombreKey).Nodup := hnombres.sublist (hsub.map nombreKey)
  have hmm : ((conj.zip tup).map fun p => nombreKey p.1) =
      ((conj.zip tup).map Prod.fst).map nombreKey := by
    rw [List.map_map]
    rfl
  rw [hmm, List.map_fst_zip conj tup hlen]
  exact hkeys

/-- C1 counterexample: the claim quantifies over every catalog, but on a
catalog with two subjects whose names differ only in case (Python compares
subjects case-insensitively) the selection dict collapses, and the
generator yields a one-subject schedule that is not a selection over any
size-2 subset, refuting the claim as stated. -/
theorem enumeracion_contraejemplo :
    encontrarHorarios [asigFis, asigFisDup] 2 =
        .ok [⟨[(asigFis, grupoCalc2)]⟩] ∧
      ¬ SeleccionValida [asigFis, asigFisDup] 2 [(asigFis, grupoCalc2)] := by
  constructor
  · rfl
  · rintro ⟨hlen, _⟩
    simp at hlen

/-- C1 amended: over a catalog whose subjects have pairwise distinct
case-insensitive names and whose per-subject group lists carry distinct ids
(both invariants of the data model; each subject's groups also internally
conflict-free as the claim assumes), for 0 < k <= catalog size,
`encontrar_horarios` succeeds and its output, viewed as selections, has no
duplicates and contains exactly the conflict-free selections of one offered
group per subject of each size-k sublist of the catalog. -/
theorem enumeracion_exacta (catalogo : List Asignatura) (k : Nat)
    (hk0 : 0 < k) (hk : k ≤ catalogo.length)
    (hnombres : (catalogo.map nombreKey).Nodup)
    (hids : ∀ a ∈ catalogo, (a.grupos.map Grupo.idGrupo).Nodup)
    (hbloques : ∀ a ∈ catalogo, ∀ g ∈ a.grupos,
      g.bloques.Pairwise fun b1 b2 => b1.seSolapaCon b2 = false) :
    ∃ hs, encontrarHorarios catalogo k = .ok hs ∧
      (hs.map Horario.seleccion).Nodup ∧
      ∀ sel, sel ∈ hs.map Horario.seleccion ↔ SeleccionValida catalogo k sel := by
  refine ⟨((candidatos catalogo k).filter fun s =>
      (primerConflicto s).isNone).map Horario.mk,
    generarConManejo_pipeline (candidatos catalogo k), ?_, ?_⟩
  · rw [map_mk_seleccion]
    apply List.Nodup.filter
    unfold candidatos
    rw [List.nodup_flatMap]
    constructor
    · intro conj hconj
      obtain ⟨hsub, hlenc⟩ := (mem_combinations catalogo k conj).mp hconj
      apply List.Nodup.map_on
      · intro t1 ht1 t2 ht2 heq
        have hl1 : t1.length = conj.length := by
          simpa using ((mem_productL _ t1).mp ht1).length_eq
        have hl2 : t2.length = conj.length := by
          simpa using ((mem_productL _ t2).mp ht2).length_eq
        rw [dict_zip_eq catalogo hnombres conj hsub t1 hl1.ge,
            dict_zip_eq catalogo hnombres conj hsub t2 hl2.ge] at heq
        have hsnd := congrArg (List.map Prod.snd) heq
        rwa [List.map_snd_zip conj t1 hl1.le,
             List.map_snd_zip conj t2 hl2.le] at hsnd
      · apply nodup_productL
        intro lx hlx
        obtain ⟨a, ha, rfl⟩ := List.mem_map.mp hlx
        exact (hids a (hsub.subset ha)).of_map
    · have hcat : catalogo.Nodup := hnombres.of_map
      have hcomb := nodup_combinations catalogo hcat k
      apply hcomb.imp_of_mem
      intro conj1 conj2 h1 h2 hne
      intro sel hs1 hs2
      obtain ⟨t1, ht1, rfl⟩ := List.mem_map.mp hs1
      obtain ⟨t2, ht2, heq⟩ := List.mem_map.mp hs2
      obtain ⟨hsub1, _⟩ := (mem_combinations catalogo k conj1).mp h1
      obtain ⟨hsub2, _⟩ := (mem_combinations catalogo k conj2).mp h2
      have hl1 : t1.length = conj1.length := by
        simpa using ((mem_productL _ t1).mp ht1).length_eq
      have hl2 : t2.length = conj2.length := by
        simpa using ((mem_productL _ t2).mp ht2).length_eq
      rw [dict_zip_eq catalogo hnombres conj1 hsub1 t1 hl1.ge,
          dict_zip_eq catalogo hnombres conj2 hsub2 t2 hl2.ge] at heq
      have hfst := congrArg (List.map Prod.fst) heq
      rw [List.map_fst_zip conj1 t1 hl1.ge,
          List.map_fst_zip conj2 t2 hl2.ge] at hfst
      exact hne hfst.symm
  · intro sel
    rw [map_mk_seleccion, List.mem_filter, mem_candidatos]
    constructor
    · rintro ⟨⟨conj, tup, hconj, htup, rfl⟩, hval⟩
      obtain ⟨hsub, hlenc⟩ := (mem_combinations catalogo k conj).mp hconj
      have hf := (mem_productL _ tup).mp htup
      have hlt : tup.length = conj.length := by simpa using hf.length_eq
      rw [dict_zip_eq catalogo hnombres conj hsub tup hlt.ge] at hval ⊢
      refine ⟨?_, ?_, ?_, ?_⟩
      · rw [List.length_zip, hlt, hlenc]
        exact min_self k
      · rw [List.map_fst_zip conj tup hlt.ge]
        exact hsub
      · exact zip_mem_grupos conj tup hf
      · exact (primerConflicto_eq_none_iff _).mp (Option.isNone_iff_eq_none.mp hval)
    · rintro ⟨hlen, hsub, hgr, hpw⟩
      have hkeys : (sel.map fun p => nombreKey p.1).Nodup := by
        have hnd := hnombres.sublist (hsub.map nombreKey)
        rw [List.map_map] at hnd
        exact hnd
      constructor
      · refine ⟨sel.map Prod.fst, sel.map Prod.snd, ?_, ?_, ?_⟩
        · exact (mem_combinations catalogo k _).mpr
            ⟨hsub, by rw [List.length_map, hlen]⟩
        · exact (mem_productL _ _).mpr (forall₂_of_mem_grupos sel hgr)
        · rw [zip_fst_snd sel, dictOfPairs_eq_self sel hkeys]
      · exact Option.isNone_iff_eq_none.mpr ((primerConflicto_eq_none_iff sel).mpr hpw)

/-- C1 amended witness: the two-subject catalog from the spec scenario,
with k = 2, instantiating every hypothesis concretely. -/
theorem enumeracion_exacta_testigo :
    0 < 2 ∧ 2 ≤ [asigCalc, asigFis].length ∧
      ([asigCalc, asigFis].map nombreKey).Nodup ∧
      (∀ a ∈ [asigCalc, asigFis], (a.grupos.map Grupo.idGrupo).Nodup) ∧
      (∀ a ∈ [asigCalc, asigFis], ∀ g ∈ a.grupos,
        g.bloques.Pairwise fun b1 b2 => b1.seSolapaCon b2 = false) ∧
      ∃ hs, encontrarHorarios [asigCalc, asigFis] 2 = .ok hs ∧
        (hs.map Horario.seleccion).Nodup ∧
        ∀ sel, sel ∈ hs.map Horario.seleccion ↔
          SeleccionValida [asigCalc, asigFis] 2 sel :=
  ⟨by decide, by decide, by decide, by decide, by decide,
    enumeracion_exacta [asigCalc, asigFis] 2 (by decide) (by decide)
      (by decide) (by decide) (by decide)⟩

/-- C10: requesting zero subjects yields exactly one schedule, the empty
one, whose length is zero, and raises no error. -/
theorem k_cero_un_horario (catalogo : List Asignatura) :
    encontrarHorarios catalogo 0 = .ok [⟨[]⟩] ∧ Horario.len ⟨[]⟩ = 0 := by
  have hco : combinations 0 catalogo = ([[]] : List (List Asignatura)) := by
    simp [combinations]
  have hc : candidatos catalogo 0 = [[]] := by
    unfold candidatos
    rw [hco]
    rfl
  constructor
  · show generarConManejo
        ((candidatos catalogo 0).map fun sel => mkHorario (.dict sel)) = _
    rw [hc]
    rfl
  · rfl

end Horarios
